import Mathlib

/-!
Verification of the tldr-bot command logic (`bot.py`).

This file shallowly embeds the pure core of the bot:

* `parse_time_ago` — parsing of duration strings such as "30m", "1h", "2d"
  (`bot.py`, `parse_time_ago`, lines 38–70); durations are represented as an
  integer number of seconds (Python's `timedelta` normalised to seconds).
  Python's `timedelta` raises `OverflowError` when the normalised day count
  leaves ±999999999; `timedeltaOfSeconds` models that bound, so matched
  inputs such as "1000000000d" produce the overflow error, not a duration.
* `split_text_into_chunks` — splitting of long summary text into chunks that
  fit Discord's embed-description limit (`bot.py`, lines 73–100).
* `tldr_prefetch` — the pre-fetch phase of the `tldr` command handler: parse
  both time arguments, reject over-wide and inverted ranges (`bot.py`,
  lines 164–198).  The handler only reaches the gateway history fetch when
  this phase yields `.fetch`, so an error result implies no fetch happens.
* `build_embeds` / `footer_text` — construction of the reply's embed blocks
  (`bot.py`, lines 244–268).

Strings are modelled as `List Char`.  Python's `str.strip`/`rstrip`/`lstrip`
are modelled over the ASCII whitespace characters; `\d` in the time regex is
modelled as ASCII digits (Python's Unicode digit classes are out of scope).
-/

/-- ASCII whitespace as recognised by Python's `str.strip` family:
space (32), tab (9), newline (10), carriage return (13), vertical
tab (11), form feed (12). -/
def isPySpace (c : Char) : Bool :=
  c.toNat = 32 || c.toNat = 9 || c.toNat = 10 || c.toNat = 13 ||
    c.toNat = 11 || c.toNat = 12

/-- Python `str.lstrip()`: drop leading whitespace. -/
def pyLstrip (s : List Char) : List Char :=
  s.dropWhile isPySpace

/-- Python `str.rstrip()`: drop trailing whitespace. -/
def pyRstrip (s : List Char) : List Char :=
  (s.reverse.dropWhile isPySpace).reverse

/-- Python `str.strip()`: drop whitespace at both ends. -/
def pyStrip (s : List Char) : List Char :=
  pyRstrip (pyLstrip s)

/-- Model of `\d` in the time regex, restricted to ASCII: '0'–'9'. -/
def isAsciiDigit (c : Char) : Bool :=
  48 ≤ c.toNat && c.toNat ≤ 57

/-- The unit class `[mhd]` of `TIME_PATTERN` under `re.IGNORECASE`. -/
def isUnitChar (c : Char) : Bool :=
  c = 'm' || c = 'h' || c = 'd' || c = 'M' || c = 'H' || c = 'D'

/-- Python `int(...)` applied to the matched digit group, over `Int`
(Python integers are signed and unbounded). -/
def digitsToInt (ds : List Char) : Int :=
  ds.foldl (fun acc c => acc * 10 + ((c.toNat : Int) - 48)) 0

/-- Model of `TIME_PATTERN.match` on an (already stripped) string:
`^(\d+)([mhd])$` with `re.IGNORECASE`.  Returns the digit group and the
unit character on success.  Since a digit can never match `[mhd]`, the
greedy `\d+` never backtracks and the match is equivalent to splitting
the string at its maximal digit prefix. -/
def matchTime (s : List Char) : Option (List Char × Char) :=
  if s.takeWhile isAsciiDigit = [] then none
  else
    match s.dropWhile isAsciiDigit with
    | [u] => if isUnitChar u then some (s.takeWhile isAsciiDigit, u) else none
    | _ => none

/-- The distinct raises observable from `parse_time_ago`: the three
`TimeParseError` raises — the format failure (line 53), the defensive
negative-value check (line 61) and the unknown-unit fallthrough
(line 70) — plus Python's built-in `OverflowError`, raised by the
`timedelta` constructor itself (lines 64–68) when the normalised day
count leaves ±999999999.  `OverflowError` is a *different exception
class* from `TimeParseError`: the caller's `except TimeParseError`
handler (`bot.py` line 168) does not catch it, so it falls through to
the generic `except Exception` handler (line 288). -/
inductive TimeParseErrorKind
  | invalidFormat
  | invalidValue
  | unknownUnit
  | overflowError
deriving DecidableEq, Repr

/-- Python's `timedelta(...)` constructor applied to a whole number of
seconds.  `datetime.timedelta` normalises to `(days, seconds,
microseconds)` and raises `OverflowError` unless
`-999999999 ≤ days ≤ 999999999`; for integer seconds that is
`-999999999·86400 ≤ secs < 86400·10⁹`.  In `parse_time_ago` only
non-negative seconds reach it (the `value < 0` check comes first), so
only the upper bound is exercised. -/
def timedeltaOfSeconds (secs : Int) : Except TimeParseErrorKind Int :=
  if secs < -(999999999 * 86400) then
    Except.error TimeParseErrorKind.overflowError
  else if secs < 86400 * 1000000000 then Except.ok secs
  else Except.error TimeParseErrorKind.overflowError

/-- Model of `parse_time_ago` (`bot.py` lines 38–70): strip the input, match
`TIME_PATTERN`, defensively check the value, and map the lowercased unit
to a `timedelta` — here an `Int` number of seconds
(minutes×60, hours×3600, days×86400), constructed through
`timedeltaOfSeconds` so that `timedelta`'s `OverflowError` path is
preserved. -/
def parse_time_ago (timeStr : List Char) : Except TimeParseErrorKind Int :=
  match matchTime (pyStrip timeStr) with
  | none => Except.error TimeParseErrorKind.invalidFormat
  | some (digits, unit) =>
    let value : Int := digitsToInt digits
    let unitL : Char := unit.toLower
    if value < 0 then Except.error TimeParseErrorKind.invalidValue
    else if unitL = 'm' then timedeltaOfSeconds (value * 60)
    else if unitL = 'h' then timedeltaOfSeconds (value * 3600)
    else if unitL = 'd' then timedeltaOfSeconds (value * 86400)
    else Except.error TimeParseErrorKind.unknownUnit

/-- Discord embed limits (`bot.py` lines 25–26). -/
def EMBED_DESC_LIMIT : Nat := 4096

def MAX_EMBEDS_PER_MESSAGE : Nat := 10

/-- Configuration value `MAX_TIME_RANGE_DAYS` (`config.py` line 27). -/
def MAX_TIME_RANGE_DAYS : Nat := 3

/-- Python `s.rfind(c)` restricted to a prefix is `lastIdxOf c (s.take end)`:
the greatest index at which `c` occurs, if any (Python returns -1 for
"no occurrence"; the `none` case plays that role). -/
def lastIdxOf (c : Char) : List Char → Option Nat
  | [] => none
  | x :: xs =>
    match lastIdxOf c xs with
    | some i => some (i + 1)
    | none => if x = c then some 0 else none

/-- The split-point computation of one loop iteration of
`split_text_into_chunks` (`bot.py` lines 89–95): start from `max_length`,
and move to just past the last newline in `remaining[0:max_length]` when
that newline sits strictly past `max_length // 2`.  Python's
`last_newline = -1` (no newline) never satisfies `-1 > max_length // 2`,
which the `none` branch reflects. -/
def splitStep (remaining : List Char) (maxLength : Nat) : Nat :=
  match lastIdxOf '\n' (remaining.take maxLength) with
  | some i => if maxLength / 2 < i then i + 1 else maxLength
  | none => maxLength

/-- The `while remaining:` loop of `split_text_into_chunks`
(`bot.py` lines 84–98), written with explicit fuel so that it is
structurally recursive (and hence evaluates inside the kernel).  Each
iteration with a positive limit consumes at least one character of
`remaining`, so `remaining.length + 1` units of fuel always suffice and
the fuel case is then unreachable (see `splitLoopFuel_congr`).  When
`maxLength = 0` and the text starts with a non-space character the Python
loop never terminates; that configuration is unreachable from the bot
(the only caller passes `EMBED_DESC_LIMIT`), and every theorem below
assumes a positive limit. -/
def splitLoopFuel (maxLength : Nat) : Nat → List Char → List (List Char)
  | 0, _ => []
  | fuel + 1, remaining =>
    if remaining = [] then []
    else if remaining.length ≤ maxLength then [remaining]
    else
      pyRstrip (remaining.take (splitStep remaining maxLength)) ::
        splitLoopFuel maxLength fuel
          (pyLstrip (remaining.drop (splitStep remaining maxLength)))

/-- The loop of `split_text_into_chunks`, with enough fuel for any
positive limit. -/
def splitLoop (maxLength : Nat) (remaining : List Char) : List (List Char) :=
  splitLoopFuel maxLength (remaining.length + 1) remaining

/-- Model of `split_text_into_chunks` (`bot.py` lines 73–100). -/
def split_text_into_chunks (text : List Char) (maxLength : Nat) : List (List Char) :=
  if text.length ≤ maxLength then [text]
  else splitLoop maxLength text

/-- The seconds per unit of `parse_time_ago`'s unit mapping:
`m` → minutes, `h` → hours, `d` → days (vocabulary for stating the
parse theorems; `parse_time_ago` itself inlines these constants just as
the source does). -/
def unitSeconds : Char → Int
  | 'm' => 60
  | 'h' => 3600
  | 'd' => 86400
  | _ => 0

/-- The pattern `^\d+[mMhHdD]$` applied to the raw string, with no
whitespace tolerance — the way the spec's testable property states it. -/
def matchesClaimPattern (s : List Char) : Bool :=
  (matchTime s).isSome

/-- One splitting step of `split_text_into_chunks` as §4.2 of the spec
describes it, except with the comparison corrected to the code's strict
`last_newline > max_length // 2`: the pair (emitted chunk, new
remainder). -/
def chunkStepSpec (remaining : List Char) (limit : Nat) : List Char × List Char :=
  match lastIdxOf '\n' (remaining.take limit) with
  | some i =>
    if limit / 2 < i then
      (pyRstrip (remaining.take (i + 1)), pyLstrip (remaining.drop (i + 1)))
    else (pyRstrip (remaining.take limit), pyLstrip (remaining.drop limit))
  | none => (pyRstrip (remaining.take limit), pyLstrip (remaining.drop limit))

/-- One splitting step as the claim states it verbatim: split at the last
newline whenever its position is at or after half of the limit,
*including exactly half* (`limit / 2 ≤ i`). -/
def chunkStepClaim (remaining : List Char) (limit : Nat) : List Char × List Char :=
  match lastIdxOf '\n' (remaining.take limit) with
  | some i =>
    if limit / 2 ≤ i then
      (pyRstrip (remaining.take (i + 1)), pyLstrip (remaining.drop (i + 1)))
    else (pyRstrip (remaining.take limit), pyLstrip (remaining.drop limit))
  | none => (pyRstrip (remaining.take limit), pyLstrip (remaining.drop limit))

/-- Outcome of the pre-fetch phase of `tldr_command` (`bot.py`
lines 164–198).  Only the `.fetch` outcome proceeds to the gateway
history call (`interaction.channel.history`, line 194); every other
constructor corresponds to an early `followup.send` + `return`, so no
message fetch is performed there. -/
inductive PrefetchResult
  | badTimeFormat
  | rangeTooWide
  | invertedRange
  | fetch (startDelta endDelta : Int)
deriving DecidableEq, Repr

/-- The pre-fetch phase of `tldr_command` (`bot.py` lines 164–198):
parse `start` then `end` (the first `TimeParseError` aborts), reject a
start delta above `maxDays` days, then reject `end_delta >= start_delta`,
and otherwise proceed to the fetch with both deltas. -/
def tldr_prefetch (start end_ : List Char) (maxDays : Nat) : PrefetchResult :=
  match parse_time_ago start with
  | Except.error _ => PrefetchResult.badTimeFormat
  | Except.ok startDelta =>
    match parse_time_ago end_ with
    | Except.error _ => PrefetchResult.badTimeFormat
    | Except.ok endDelta =>
      let maxDelta : Int := (maxDays : Int) * 86400
      if maxDelta < startDelta then PrefetchResult.rangeTooWide
      else if startDelta ≤ endDelta then PrefetchResult.invertedRange
      else PrefetchResult.fetch startDelta endDelta

/-- The fields of a reply embed that the handler sets (`bot.py`
lines 255–265): the chunk text, an optional title and an optional
footer. -/
structure EmbedM where
  description : List Char
  title : Option (List Char)
  footer : Option (List Char)
deriving DecidableEq, Repr

/-- The fixed title of the first embed (`bot.py` line 261). -/
def tldrTitle : List Char := "📋 TL;DR Summary".toList

/-- The footer text (`bot.py` lines 245–247): message count, the original
`start`/`end` argument strings, and — when a custom focus was supplied —
the focus truncated to its first 50 characters with `"..."` appended when
it is longer than 50. -/
def footer_text (nMessages : Nat) (start end_ : List Char)
    (focus : Option (List Char)) : List Char :=
  let base := "Summarized ".toList ++ Nat.toDigits 10 nMessages ++
    " messages • ".toList ++ start ++ " → ".toList ++ end_
  match focus with
  | none => base
  | some f =>
    base ++ " • Focus: ".toList ++ f.take 50 ++
      (if 50 < f.length then "...".toList else [])

/-- The embed built for the chunk at index `i` (`bot.py` lines 254–265):
the title goes only on index 0, the footer on the last chunk of the
original (uncapped) chunk list or on index `MAX_EMBEDS_PER_MESSAGE - 1`,
whichever is hit inside the capped range. -/
def embed_for (i total : Nat) (chunk footerText : List Char) : EmbedM :=
  EmbedM.mk chunk
    (if i = 0 then some tldrTitle else none)
    (if i = total - 1 ∨ i = MAX_EMBEDS_PER_MESSAGE - 1 then some footerText
     else none)

/-- The embed list of `tldr_command` (`bot.py` lines 253–265):
`for i, chunk in enumerate(chunks[:MAX_EMBEDS_PER_MESSAGE])`. -/
def build_embeds (chunks : List (List Char)) (footerText : List Char) :
    List EmbedM :=
  ((chunks.take MAX_EMBEDS_PER_MESSAGE).enum).map
    (fun p => embed_for p.1 chunks.length p.2 footerText)

/-! ### The 9000-character scenario of end-to-end scenario 6

A summary text of 9000 characters with evenly spaced newlines every 80
characters: 112 lines of 79 `'a'`s followed by `'\n'`, then 40 trailing
`'a'`s (112 × 80 + 40 = 9000). -/

/-- One 80-character line of the scenario text. -/
def scnLine : List Char := List.replicate 79 'a' ++ ['\n']

/-- Scenario text consisting of `n` consecutive lines. -/
def scnLines (n : Nat) : List Char := (List.replicate n scnLine).flatten

/-- The trailing partial line. -/
def scnA : List Char := List.replicate 40 'a'

/-- The scenario text: 9000 characters, newline at every index
`80·k + 79`. -/
def scnText : List Char := scnLines 112 ++ scnA

/-- The chunk the splitter emits in each of its first two iterations:
50 full lines followed by a final line with its newline stripped
(4079 characters). -/
def scnChunk : List Char := scnLines 50 ++ List.replicate 79 'a'

/-! ### Basic lemmas about the split point and the loop -/

theorem lastIdxOf_lt_length {c : Char} :
    ∀ {s : List Char} {i : Nat}, lastIdxOf c s = some i → i < s.length := by
  intro s
  induction s with
  | nil => intro i h; simp [lastIdxOf] at h
  | cons x xs ih =>
    intro i h
    simp only [lastIdxOf] at h
    cases hx : lastIdxOf c xs with
    | some j =>
      rw [hx] at h
      cases h
      have := ih hx
      simp [List.length_cons]
      omega
    | none =>
      rw [hx] at h
      by_cases hxc : x = c
      · simp [hxc] at h
        cases h
        simp
      · simp [hxc] at h

theorem splitStep_le {remaining : List Char} {maxLength : Nat} :
    splitStep remaining maxLength ≤ maxLength := by
  unfold splitStep
  cases h : lastIdxOf '\n' (remaining.take maxLength) with
  | none => exact Nat.le_refl _
  | some i =>
    have hi : i < (remaining.take maxLength).length := lastIdxOf_lt_length h
    have : (remaining.take maxLength).length ≤ maxLength := by
      simp [List.length_take]
    by_cases hhalf : maxLength / 2 < i
    · simp [hhalf]; omega
    · simp [hhalf]

theorem splitStep_pos {remaining : List Char} {maxLength : Nat}
    (h : 0 < maxLength) : 0 < splitStep remaining maxLength := by
  unfold splitStep
  cases hl : lastIdxOf '\n' (remaining.take maxLength) with
  | none => exact h
  | some i =>
    by_cases hhalf : maxLength / 2 < i
    · simp [hhalf]
    · simp [hhalf]; exact h

theorem pyLstrip_length_le (s : List Char) : (pyLstrip s).length ≤ s.length :=
  (List.dropWhile_sublist _).length_le

theorem pyRstrip_length_le (s : List Char) : (pyRstrip s).length ≤ s.length := by
  unfold pyRstrip
  calc (s.reverse.dropWhile isPySpace).reverse.length
      = (s.reverse.dropWhile isPySpace).length := List.length_reverse _
    _ ≤ s.reverse.length := (List.dropWhile_sublist _).length_le
    _ = s.length := List.length_reverse _

/-- The length of the loop's new `remaining` drops by at least the split
point. -/
theorem next_remaining_length (remaining : List Char) (maxLength : Nat) :
    (pyLstrip (remaining.drop (splitStep remaining maxLength))).length ≤
      remaining.length - splitStep remaining maxLength := by
  calc (pyLstrip (remaining.drop (splitStep remaining maxLength))).length
      ≤ (remaining.drop (splitStep remaining maxLength)).length :=
        pyLstrip_length_le _
    _ = remaining.length - splitStep remaining maxLength := List.length_drop _ _

/-- With a positive limit, any fuel exceeding the length of the remaining
text gives the same result: the loop is insensitive to the exact fuel. -/
theorem splitLoopFuel_congr {maxLength : Nat} (hm : 0 < maxLength) :
    ∀ (f₁ f₂ : Nat) (remaining : List Char),
      remaining.length < f₁ → remaining.length < f₂ →
      splitLoopFuel maxLength f₁ remaining = splitLoopFuel maxLength f₂ remaining := by
  intro f₁
  induction f₁ with
  | zero => intro f₂ remaining h1; omega
  | succ f ih =>
    intro f₂ remaining h1 h2
    cases f₂ with
    | zero => omega
    | succ g =>
      simp only [splitLoopFuel]
      by_cases hnil : remaining = []
      · simp [hnil]
      · simp only [hnil, if_false]
        by_cases hfit : remaining.length ≤ maxLength
        · simp [hfit]
        · simp only [hfit, if_false]
          have hpos : 0 < remaining.length := List.length_pos.mpr hnil
          have hsp : 0 < splitStep remaining maxLength := splitStep_pos hm
          have hnext := next_remaining_length remaining maxLength
          have := ih g (pyLstrip (remaining.drop (splitStep remaining maxLength)))
            (by omega) (by omega)
          rw [this]

/-- One-step unfolding of the loop, fuel hidden, for positive limits. -/
theorem splitLoop_eq {maxLength : Nat} (hm : 0 < maxLength) (remaining : List Char) :
    splitLoop maxLength remaining =
      if remaining = [] then []
      else if remaining.length ≤ maxLength then [remaining]
      else
        pyRstrip (remaining.take (splitStep remaining maxLength)) ::
          splitLoop maxLength
            (pyLstrip (remaining.drop (splitStep remaining maxLength))) := by
  unfold splitLoop
  conv_lhs => rw [splitLoopFuel]
  by_cases hnil : remaining = []
  · simp [hnil]
  · simp only [hnil, if_false]
    by_cases hfit : remaining.length ≤ maxLength
    · simp [hfit]
    · simp only [hfit, if_false]
      have hpos : 0 < remaining.length := List.length_pos.mpr hnil
      have hsp : 0 < splitStep remaining maxLength := splitStep_pos hm
      have hnext := next_remaining_length remaining maxLength
      rw [splitLoopFuel_congr hm remaining.length
        ((pyLstrip (remaining.drop (splitStep remaining maxLength))).length + 1)
        (pyLstrip (remaining.drop (splitStep remaining maxLength)))
        (by omega) (by omega)]

theorem lastIdxOf_append (c : Char) (xs ys : List Char) :
    lastIdxOf c (xs ++ ys) =
      match lastIdxOf c ys with
      | some j => some (xs.length + j)
      | none => lastIdxOf c xs := by
  induction xs with
  | nil =>
    simp only [List.nil_append, List.length_nil]
    cases lastIdxOf c ys <;> simp [lastIdxOf]
  | cons x xs ih =>
    have hcons : lastIdxOf c ((x :: xs) ++ ys) =
        match lastIdxOf c (xs ++ ys) with
        | some i => some (i + 1)
        | none => if x = c then some 0 else none := rfl
    have hcons2 : lastIdxOf c (x :: xs) =
        match lastIdxOf c xs with
        | some i => some (i + 1)
        | none => if x = c then some 0 else none := rfl
    rw [hcons, ih, hcons2]
    cases hys : lastIdxOf c ys with
    | some j =>
      show some (xs.length + j + 1) = some ((x :: xs).length + j)
      simp only [List.length_cons]
      exact congrArg some (by omega)
    | none => rfl

theorem lastIdxOf_replicate {c a : Char} (h : ¬a = c) (n : Nat) :
    lastIdxOf c (List.replicate n a) = none := by
  induction n with
  | zero => rfl
  | succ n ih => simp [List.replicate_succ, lastIdxOf, ih, h]

theorem pyRstrip_append_space {s : List Char} {c : Char}
    (h : isPySpace c = true) : pyRstrip (s ++ [c]) = pyRstrip s := by
  simp [pyRstrip, List.reverse_append, List.dropWhile_cons, h]

theorem pyRstrip_append_nonspace {s : List Char} {c : Char}
    (h : isPySpace c = false) : pyRstrip (s ++ [c]) = s ++ [c] := by
  simp [pyRstrip, List.reverse_append, List.dropWhile_cons, h]

theorem pyLstrip_cons_nonspace {s : List Char} {c : Char}
    (h : isPySpace c = false) : pyLstrip (c :: s) = c :: s := by
  simp [pyLstrip, List.dropWhile_cons, h]

theorem scnLines_add (m n : Nat) :
    scnLines (m + n) = scnLines m ++ scnLines n := by
  unfold scnLines
  rw [List.replicate_add, List.flatten_append]

theorem scnLines_one : scnLines 1 = scnLine := by
  unfold scnLines
  rw [List.replicate_one]
  simp

theorem scnLines_succ (n : Nat) :
    scnLines (n + 1) = scnLine ++ scnLines n := by
  rw [Nat.add_comm, scnLines_add, scnLines_one]

theorem scnLine_length : scnLine.length = 80 := by
  rw [scnLine, List.length_append, List.length_replicate]
  rfl

theorem scnLines_length (n : Nat) : (scnLines n).length = 80 * n := by
  induction n with
  | zero => rfl
  | succ n ih =>
    rw [scnLines_succ, List.length_append, ih, scnLine_length]
    ring

theorem lastIdxOf_scnLine : lastIdxOf '\n' scnLine = some 79 := by
  rw [scnLine, lastIdxOf_append]
  simp [lastIdxOf]

theorem lastIdxOf_scnLines (n : Nat) :
    lastIdxOf '\n' (scnLines (n + 1)) = some (80 * n + 79) := by
  rw [scnLines_add, lastIdxOf_append, scnLines_one, lastIdxOf_scnLine,
    scnLines_length]

theorem isPySpace_a : isPySpace 'a' = false := by decide

theorem isPySpace_nl : isPySpace '\n' = true := by decide

theorem lastIdxOf_scnA : lastIdxOf '\n' scnA = none :=
  lastIdxOf_replicate (by decide) 40

/-- In the scenario, the window `remaining[0:4096]` is 51 full lines plus
the first 16 characters of the next line. -/
theorem take_4096_scn (m : Nat) (rest : List Char) :
    (scnLines 51 ++ (scnLines (m + 1) ++ rest)).take 4096 =
      scnLines 51 ++ List.replicate 16 'a' := by
  have h51 : (scnLines 51).length = 4080 := by rw [scnLines_length]
  have h4096 : (4096 : Nat) = (scnLines 51).length + 16 := by rw [h51]
  rw [h4096, List.take_append]
  congr 1

theorem take_split_scn (rest : List Char) :
    (scnLines 51 ++ rest).take 4080 = scnLines 51 := by
  have h51 : (scnLines 51).length = 4080 := by rw [scnLines_length]
  rw [← h51, List.take_left]

theorem drop_split_scn (rest : List Char) :
    (scnLines 51 ++ rest).drop 4080 = rest := by
  have h51 : (scnLines 51).length = 4080 := by rw [scnLines_length]
  rw [← h51, List.drop_left]

theorem pyRstrip_scnLines51 : pyRstrip (scnLines 51) = scnChunk := by
  have h51 : scnLines 51 = (scnLines 50 ++ List.replicate 79 'a') ++ ['\n'] := by
    rw [show (51 : Nat) = 50 + 1 from rfl, scnLines_add, scnLines_one,
      scnLine, List.append_assoc]
  rw [h51, pyRstrip_append_space isPySpace_nl]
  have h79 : List.replicate 79 'a' = List.replicate 78 'a' ++ ['a'] :=
    List.replicate_succ' 78 'a'
  rw [scnChunk, h79, ← List.append_assoc,
    pyRstrip_append_nonspace isPySpace_a, List.append_assoc]

theorem pyLstrip_scn (m : Nat) (rest : List Char) :
    pyLstrip (scnLines (m + 1) ++ rest) = scnLines (m + 1) ++ rest := by
  rw [scnLines_succ, scnLine]
  have : List.replicate 79 'a' = 'a' :: List.replicate 78 'a' := rfl
  rw [this]
  simp only [List.cons_append]
  exact pyLstrip_cons_nonspace isPySpace_a

/-- The split point in the scenario is always 4080: the last newline in
the 4096-character window sits at index 4079 = 80·50 + 79, past half the
limit. -/
theorem splitStep_scn (m : Nat) (rest : List Char) :
    splitStep (scnLines 51 ++ (scnLines (m + 1) ++ rest)) 4096 = 4080 := by
  unfold splitStep
  rw [take_4096_scn m rest, lastIdxOf_append]
  rw [lastIdxOf_replicate (by decide) 16]
  have h50 : (51 : Nat) = 50 + 1 := rfl
  rw [h50, lastIdxOf_scnLines 50]
  norm_num

theorem scnA_length : scnA.length = 40 := by
  simp [scnA]

/-- One full loop iteration on a scenario suffix with at least 52 lines:
emit `scnChunk` (the split point is 4080) and continue on the text 51
lines later. -/
theorem splitLoop_scn_step (m : Nat) :
    splitLoop 4096 (scnLines (51 + (m + 1)) ++ scnA) =
      scnChunk :: splitLoop 4096 (scnLines (m + 1) ++ scnA) := by
  have hassoc : scnLines (51 + (m + 1)) ++ scnA =
      scnLines 51 ++ (scnLines (m + 1) ++ scnA) := by
    rw [scnLines_add, List.append_assoc]
  have hXlen : (scnLines 51 ++ (scnLines (m + 1) ++ scnA)).length =
      4200 + 80 * m := by
    rw [List.length_append, List.length_append, scnLines_length,
      scnLines_length, scnA_length]
    ring
  rw [hassoc, splitLoop_eq (by norm_num)]
  rw [if_neg (by
    intro h
    rw [h] at hXlen
    simp at hXlen
    omega)]
  rw [if_neg (by omega)]
  rw [splitStep_scn m scnA, take_split_scn, drop_split_scn,
    pyRstrip_scnLines51, pyLstrip_scn]

/-- The code splits the 9000-character scenario text into three chunks:
twice 4079 characters (51 lines with the trailing newline stripped), then
the remaining 840 characters. -/
theorem split_scnText :
    split_text_into_chunks scnText 4096 =
      [scnChunk, scnChunk, scnLines 10 ++ scnA] := by
  have hlen : scnText.length = 9000 := by
    rw [scnText, List.length_append, scnLines_length, scnA_length]
  rw [split_text_into_chunks, hlen, if_neg (by norm_num)]
  have h1 : scnText = scnLines (51 + (60 + 1)) ++ scnA := rfl
  rw [h1, splitLoop_scn_step 60]
  have h2 : scnLines (60 + 1) ++ scnA = scnLines (51 + (9 + 1)) ++ scnA := rfl
  rw [h2, splitLoop_scn_step 9]
  have hlen2 : (scnLines (9 + 1) ++ scnA).length = 840 := by
    rw [List.length_append, scnLines_length, scnA_length]
  rw [splitLoop_eq (by norm_num)]
  rw [if_neg (by
    intro h
    rw [h] at hlen2
    simp at hlen2)]
  rw [if_pos (by rw [hlen2]; norm_num)]

theorem scnChunk_length : scnChunk.length = 4079 := by
  rw [scnChunk, List.length_append, scnLines_length, List.length_replicate]

/-- The first split point of the scenario lands on the newline at index
4079: the emitted first chunk is the text up to that newline, newline
stripped. -/
theorem scnText_newline_boundary :
    scnText.take 4080 = scnChunk ++ ['\n'] := by
  have h1 : scnText = scnLines 51 ++ (scnLines 61 ++ scnA) := by
    rw [scnText, show (112 : Nat) = 51 + 61 from rfl, scnLines_add,
      List.append_assoc]
  rw [h1, take_split_scn]
  rw [show (51 : Nat) = 50 + 1 from rfl, scnLines_add, scnLines_one,
    scnLine, scnChunk, List.append_assoc]

/-! ### Chunk-length and step-count bounds for the loop -/

/-- Every chunk the loop emits has length at most the limit. -/
theorem splitLoop_chunk_le {maxLength : Nat} (hm : 0 < maxLength) :
    ∀ (n : Nat) (remaining : List Char), remaining.length ≤ n →
      ∀ c ∈ splitLoop maxLength remaining, c.length ≤ maxLength := by
  intro n
  induction n with
  | zero =>
    intro remaining hlen c hc
    have : remaining = [] := List.length_eq_zero.mp (by omega)
    rw [this, splitLoop_eq hm] at hc
    simp at hc
  | succ n ih =>
    intro remaining hlen c hc
    rw [splitLoop_eq hm] at hc
    by_cases hnil : remaining = []
    · simp [hnil] at hc
    · rw [if_neg hnil] at hc
      by_cases hfit : remaining.length ≤ maxLength
      · rw [if_pos hfit] at hc
        simp at hc
        rw [hc]
        exact hfit
      · rw [if_neg hfit] at hc
        rcases List.mem_cons.mp hc with hc1 | hc2
        · rw [hc1]
          calc (pyRstrip (remaining.take (splitStep remaining maxLength))).length
              ≤ (remaining.take (splitStep remaining maxLength)).length :=
                pyRstrip_length_le _
            _ ≤ splitStep remaining maxLength := by
                rw [List.length_take]; omega
            _ ≤ maxLength := splitStep_le
        · have hsp : 0 < splitStep remaining maxLength := splitStep_pos hm
          have hnext := next_remaining_length remaining maxLength
          exact ih (pyLstrip (remaining.drop (splitStep remaining maxLength)))
            (by omega) c hc2

/-- The split point always consumes strictly more than half the limit. -/
theorem splitStep_ge_half (remaining : List Char) {maxLength : Nat}
    (hm : 0 < maxLength) :
    maxLength / 2 + 1 ≤ splitStep remaining maxLength := by
  unfold splitStep
  cases lastIdxOf '\n' (remaining.take maxLength) with
  | none =>
    show maxLength / 2 + 1 ≤ maxLength
    omega
  | some i =>
    by_cases hhalf : maxLength / 2 < i
    · simp [hhalf]; omega
    · simp [hhalf]; omega

/-- The number of chunks the loop emits is linear in
`remaining.length / maxLength`: every iteration except the last consumes
more than `maxLength / 2` characters. -/
theorem splitLoop_count {maxLength : Nat} (hm : 0 < maxLength) :
    ∀ (n : Nat) (remaining : List Char), remaining.length ≤ n →
      (splitLoop maxLength remaining).length * (maxLength / 2 + 1) ≤
        remaining.length + (maxLength / 2 + 1) := by
  intro n
  induction n with
  | zero =>
    intro remaining hlen
    have : remaining = [] := List.length_eq_zero.mp (by omega)
    rw [this, splitLoop_eq hm]
    simp
  | succ n ih =>
    intro remaining hlen
    rw [splitLoop_eq hm]
    by_cases hnil : remaining = []
    · simp [hnil]
    · rw [if_neg hnil]
      by_cases hfit : remaining.length ≤ maxLength
      · rw [if_pos hfit]
        simp
      · rw [if_neg hfit]
        have hsp := splitStep_ge_half remaining hm
        have hnext := next_remaining_length remaining maxLength
        have hrec := ih (pyLstrip (remaining.drop (splitStep remaining maxLength)))
          (by omega)
        rw [List.length_cons, Nat.succ_mul]
        omega

/-- Lemma: `chunkStepSpec` computes exactly the loop's split point decomposition. -/
theorem chunkStepSpec_eq (remaining : List Char) (limit : Nat) :
    chunkStepSpec remaining limit =
      (pyRstrip (remaining.take (splitStep remaining limit)),
        pyLstrip (remaining.drop (splitStep remaining limit))) := by
  unfold chunkStepSpec splitStep
  cases lastIdxOf '\n' (remaining.take limit) with
  | none => rfl
  | some i =>
    by_cases hhalf : limit / 2 < i
    · simp [hhalf]
    · simp [hhalf]

/-- Every chunk of `split_text_into_chunks` fits the limit (shared
helper). -/
theorem split_chunk_le {text : List Char} {limit : Nat} (hm : 0 < limit) :
    ∀ c ∈ split_text_into_chunks text limit, c.length ≤ limit := by
  intro c hc
  unfold split_text_into_chunks at hc
  by_cases hfit : text.length ≤ limit
  · rw [if_pos hfit] at hc
    simp at hc
    rw [hc]
    exact hfit
  · rw [if_neg hfit] at hc
    exact splitLoop_chunk_le hm text.length text (le_refl _) c hc

/-! ### Claim theorems for the chunker -/

/-- Claim C1: For every text and every positive limit, every chunk returned
by `split_text_into_chunks text limit` has length at most `limit`; in
particular, when the window `text[0:limit]` contains no newline eligible
as a split point, the first chunk is cut at exactly the limit
(`remaining[:limit].rstrip()`). -/
theorem chunks_length_le_limit (text : List Char) (limit : Nat)
    (hm : 0 < limit) :
    (∀ c ∈ split_text_into_chunks text limit, c.length ≤ limit) ∧
    (limit < text.length → lastIdxOf '\n' (text.take limit) = none →
      (split_text_into_chunks text limit).head? =
        some (pyRstrip (text.take limit))) := by
  constructor
  · exact split_chunk_le hm
  · intro hlong hnl
    unfold split_text_into_chunks
    rw [if_neg (by omega), splitLoop_eq hm]
    have hnil : text ≠ [] := by
      intro h
      rw [h] at hlong
      simp at hlong
    rw [if_neg hnil, if_neg (by omega)]
    have hsp : splitStep text limit = limit := by
      unfold splitStep
      rw [hnl]
    rw [hsp]
    rfl

/-- Witness for `chunks_length_le_limit` at `"ab cd ef"`, limit 3. -/
theorem chunks_length_le_limit_witness :
    0 < 3 ∧
    ((∀ c ∈ split_text_into_chunks "ab cd ef".toList 3, c.length ≤ 3) ∧
      (3 < "ab cd ef".toList.length →
        lastIdxOf '\n' ("ab cd ef".toList.take 3) = none →
        (split_text_into_chunks "ab cd ef".toList 3).head? =
          some (pyRstrip ("ab cd ef".toList.take 3)))) :=
  ⟨by decide, chunks_length_le_limit "ab cd ef".toList 3 (by decide)⟩

/-- Claim C7: A text that already fits the limit is returned as the single
unchanged chunk (in particular the empty text yields `[""]`), and
re-splitting any emitted chunk returns it unchanged. -/
theorem split_small_identity (text : List Char) (limit : Nat)
    (hm : 0 < limit) :
    (text.length ≤ limit → split_text_into_chunks text limit = [text]) ∧
    split_text_into_chunks [] limit = [[]] ∧
    (∀ c ∈ split_text_into_chunks text limit,
      split_text_into_chunks c limit = [c]) := by
  refine ⟨?_, ?_, ?_⟩
  · intro h
    unfold split_text_into_chunks
    rw [if_pos h]
  · unfold split_text_into_chunks
    rw [if_pos (by simp)]
  · intro c hc
    have hlen : c.length ≤ limit := split_chunk_le hm c hc
    unfold split_text_into_chunks
    rw [if_pos hlen]

/-- Witness for `split_small_identity` at `"one\ntwo"`, limit 4096. -/
theorem split_small_identity_witness :
    0 < 4096 ∧
    (("one\ntwo".toList.length ≤ 4096 →
        split_text_into_chunks "one\ntwo".toList 4096 = ["one\ntwo".toList]) ∧
      split_text_into_chunks [] 4096 = [[]] ∧
      (∀ c ∈ split_text_into_chunks "one\ntwo".toList 4096,
        split_text_into_chunks c 4096 = [c])) :=
  ⟨by decide, split_small_identity "one\ntwo".toList 4096 (by decide)⟩

/-- Claim C8: The splitter always terminates with a non-empty chunk list
(the remaining text is emitted once it fits), and the number of emitted
chunks — the number of loop iterations — is linear in
`text.length / limit`: every iteration but the last consumes more than
`limit / 2` characters, so
`(#chunks − 1) · (limit/2 + 1) ≤ text.length`. -/
theorem split_terminates_linear (text : List Char) (limit : Nat)
    (hm : 0 < limit) :
    split_text_into_chunks text limit ≠ [] ∧
    (split_text_into_chunks text limit).length * (limit / 2 + 1) ≤
      text.length + (limit / 2 + 1) := by
  constructor
  · unfold split_text_into_chunks
    by_cases hfit : text.length ≤ limit
    · rw [if_pos hfit]
      simp
    · rw [if_neg hfit, splitLoop_eq hm]
      have hnil : text ≠ [] := by
        intro h
        rw [h] at hfit
        simp at hfit
      rw [if_neg hnil, if_neg hfit]
      simp
  · unfold split_text_into_chunks
    by_cases hfit : text.length ≤ limit
    · rw [if_pos hfit]
      simp
    · rw [if_neg hfit]
      exact splitLoop_count hm text.length text (le_refl _)

/-- Witness for `split_terminates_linear` at `"ab cd ef"`, limit 3. -/
theorem split_terminates_linear_witness :
    0 < 3 ∧
    (split_text_into_chunks "ab cd ef".toList 3 ≠ [] ∧
      (split_text_into_chunks "ab cd ef".toList 3).length * (3 / 2 + 1) ≤
        "ab cd ef".toList.length + (3 / 2 + 1)) :=
  ⟨by decide, split_terminates_linear "ab cd ef".toList 3 (by decide)⟩

/-- Claim C5 counterexample: At limit 10 the text `"01234\n6789abcdef"` has
its last in-window newline at index 5 = 10 / 2, exactly half the limit.
The claim ("at or after half, including exactly half") demands a split at
the newline, emitting `"01234"`; the code (`last_newline > max_length // 2`
is false at 5) splits at exactly the limit, emitting `"01234\n6789"`. -/
theorem split_half_newline_cex :
    lastIdxOf '\n' ("01234\n6789abcdef".toList.take 10) = some 5 ∧
    (10 : Nat) / 2 ≤ 5 ∧
    chunkStepClaim "01234\n6789abcdef".toList 10 =
      ("01234".toList, "6789abcdef".toList) ∧
    split_text_into_chunks "01234\n6789abcdef".toList 10 =
      ["01234\n6789".toList, "abcdef".toList] ∧
    ¬ (split_text_into_chunks "01234\n6789abcdef".toList 10).head? =
        some (chunkStepClaim "01234\n6789abcdef".toList 10).1 := by
  refine ⟨by rfl, by norm_num, by rfl, by rfl, by decide⟩

/-- Claim C5 amended: For text longer than the limit, each step finds the
last newline at or before the limit and splits there only when its
position is *strictly greater* than `limit / 2` (at exactly half or
earlier it splits at exactly the limit), including the newline in the cut
and applying the rstrip/lstrip policy; `chunkStepSpec` is that step. -/
theorem split_step_characterisation (text : List Char) (limit : Nat)
    (hm : 0 < limit) (hlong : limit < text.length) :
    split_text_into_chunks text limit =
      (chunkStepSpec text limit).1 ::
        splitLoop limit (chunkStepSpec text limit).2 := by
  unfold split_text_into_chunks
  rw [if_neg (by omega), splitLoop_eq hm]
  have hnil : text ≠ [] := by
    intro h
    rw [h] at hlong
    simp at hlong
  rw [if_neg hnil, if_neg (by omega), chunkStepSpec_eq]

/-- Witness for `split_step_characterisation` at `"0123456\n89abcdef"`,
limit 10. -/
theorem split_step_characterisation_witness :
    0 < 10 ∧ 10 < "0123456\n89abcdef".toList.length ∧
    split_text_into_chunks "0123456\n89abcdef".toList 10 =
      (chunkStepSpec "0123456\n89abcdef".toList 10).1 ::
        splitLoop 10 (chunkStepSpec "0123456\n89abcdef".toList 10).2 :=
  ⟨by decide, by decide,
    split_step_characterisation "0123456\n89abcdef".toList 10
      (by decide) (by decide)⟩

/-- Claim C9 counterexample: The 9000-character scenario text cannot fit in
two chunks of at most 4096 characters; the code returns three. -/
theorem scenario6_not_two_chunks :
    (split_text_into_chunks scnText 4096).length = 3 ∧
    ¬ (split_text_into_chunks scnText 4096).length = 2 := by
  rw [split_scnText]
  constructor
  · rfl
  · simp

/-- Claim C9 amended: The 9000-character scenario text with a newline
every 80 characters splits at limit 4096 into exactly three chunks; the
first ends at or before character 4096 (4079 characters) and ends on a
newline boundary: the split point 4080 is just past the newline at index
4079, which the rstrip policy then removes. -/
theorem scenario6_chunks :
    scnText.length = 9000 ∧
    (split_text_into_chunks scnText 4096).length = 3 ∧
    (split_text_into_chunks scnText 4096).head? = some scnChunk ∧
    scnChunk.length ≤ 4096 ∧
    scnText.take 4080 = scnChunk ++ ['\n'] := by
  refine ⟨?_, ?_, ?_, ?_, scnText_newline_boundary⟩
  · rw [scnText, List.length_append, scnLines_length, scnA_length]
  · rw [split_scnText]
    rfl
  · rw [split_scnText]
    rfl
  · rw [scnChunk_length]
    norm_num

/-! ### Lemmas about the time parser -/

theorem isPySpace_false_of_digit {c : Char} (h : isAsciiDigit c = true) :
    isPySpace c = false := by
  simp only [isAsciiDigit, Bool.and_eq_true, decide_eq_true_eq] at h
  simp only [isPySpace, Bool.or_eq_false_iff, decide_eq_false_iff_not]
  omega

theorem unitChar_cases {u : Char} (h : isUnitChar u = true) :
    u = 'm' ∨ u = 'h' ∨ u = 'd' ∨ u = 'M' ∨ u = 'H' ∨ u = 'D' := by
  simp only [isUnitChar, Bool.or_eq_true, decide_eq_true_eq] at h
  tauto

theorem isPySpace_false_of_unit {u : Char} (h : isUnitChar u = true) :
    isPySpace u = false := by
  rcases unitChar_cases h with rfl | rfl | rfl | rfl | rfl | rfl <;> decide

theorem isAsciiDigit_false_of_unit {u : Char} (h : isUnitChar u = true) :
    isAsciiDigit u = false := by
  rcases unitChar_cases h with rfl | rfl | rfl | rfl | rfl | rfl <;> decide

theorem takeWhile_append_all {p : Char → Bool} :
    ∀ (xs ys : List Char), (∀ c ∈ xs, p c = true) →
      (xs ++ ys).takeWhile p = xs ++ ys.takeWhile p ∧
      (xs ++ ys).dropWhile p = ys.dropWhile p := by
  intro xs
  induction xs with
  | nil => intro ys h; simp
  | cons x xs ih =>
    intro ys h
    have hx : p x = true := h x (List.mem_cons_self _ _)
    have ihy := ih ys (fun c hc => h c (List.mem_cons_of_mem _ hc))
    simp only [List.cons_append, List.takeWhile_cons, List.dropWhile_cons,
      hx, if_true, ihy.1, ihy.2]
    exact ⟨trivial, trivial⟩

theorem pyStrip_digits_unit {ds : List Char} {u : Char} (hne : ds ≠ [])
    (hds : ∀ c ∈ ds, isAsciiDigit c = true) (hu : isUnitChar u = true) :
    pyStrip (ds ++ [u]) = ds ++ [u] := by
  obtain ⟨d, ds', rfl⟩ := List.exists_cons_of_ne_nil hne
  unfold pyStrip
  rw [List.cons_append,
    pyLstrip_cons_nonspace (isPySpace_false_of_digit
      (hds d (List.mem_cons_self _ _))), ← List.cons_append,
    pyRstrip_append_nonspace (isPySpace_false_of_unit hu)]

theorem matchTime_digits_unit {ds : List Char} {u : Char} (hne : ds ≠ [])
    (hds : ∀ c ∈ ds, isAsciiDigit c = true) (hu : isUnitChar u = true) :
    matchTime (ds ++ [u]) = some (ds, u) := by
  have hu' : isAsciiDigit u = false := isAsciiDigit_false_of_unit hu
  have htake := (takeWhile_append_all ds [u] hds).1
  have hdrop := (takeWhile_append_all ds [u] hds).2
  have htu : ([u] : List Char).takeWhile isAsciiDigit = [] := by
    simp [List.takeWhile_cons, hu']
  have hdu : ([u] : List Char).dropWhile isAsciiDigit = [u] := by
    simp [List.dropWhile_cons, hu']
  rw [htu, List.append_nil] at htake
  rw [hdu] at hdrop
  unfold matchTime
  rw [htake, hdrop, if_neg hne]
  show (if isUnitChar u = true then some (ds, u) else none) = some (ds, u)
  rw [if_pos hu]

theorem matchTime_inv {s ds : List Char} {u : Char}
    (h : matchTime s = some (ds, u)) :
    ds ≠ [] ∧ (∀ c ∈ ds, isAsciiDigit c = true) ∧ isUnitChar u = true := by
  unfold matchTime at h
  by_cases hd : s.takeWhile isAsciiDigit = []
  · rw [if_pos hd] at h
    exact absurd h (by simp)
  · rw [if_neg hd] at h
    cases hr : s.dropWhile isAsciiDigit with
    | nil =>
      rw [hr] at h
      exact absurd h (by simp)
    | cons x xs =>
      cases xs with
      | nil =>
        rw [hr] at h
        have h' : (if isUnitChar x = true
            then some (s.takeWhile isAsciiDigit, x) else none) =
            some (ds, u) := h
        by_cases hux : isUnitChar x
        · rw [if_pos hux] at h'
          have hpair := Option.some.inj h'
          have hds : ds = s.takeWhile isAsciiDigit := (Prod.mk.injEq _ _ _ _ ▸ hpair).1.symm
          have hux' : u = x := (Prod.mk.injEq _ _ _ _ ▸ hpair).2.symm
          subst hds
          subst hux'
          exact ⟨hd, fun c hc => List.mem_takeWhile_imp hc, hux⟩
        · rw [if_neg hux] at h'
          exact absurd h' (by simp)
      | cons y ys =>
        rw [hr] at h
        exact absurd h (by simp)

theorem digits_foldl_nonneg :
    ∀ (ds : List Char), (∀ c ∈ ds, isAsciiDigit c = true) →
      ∀ acc : Int, 0 ≤ acc →
        0 ≤ ds.foldl (fun acc c => acc * 10 + ((c.toNat : Int) - 48)) acc := by
  intro ds
  induction ds with
  | nil =>
    intro _ acc hacc
    simpa using hacc
  | cons d ds ih =>
    intro hall acc hacc
    simp only [List.foldl_cons]
    apply ih (fun c hc => hall c (List.mem_cons_of_mem _ hc))
    have hd := hall d (List.mem_cons_self _ _)
    simp only [isAsciiDigit, Bool.and_eq_true, decide_eq_true_eq] at hd
    have h48 : (48 : Int) ≤ (d.toNat : Int) := by exact_mod_cast hd.1
    have : 0 ≤ acc * 10 := by positivity
    omega

theorem digitsToInt_nonneg {ds : List Char}
    (h : ∀ c ∈ ds, isAsciiDigit c = true) : 0 ≤ digitsToInt ds :=
  digits_foldl_nonneg ds h 0 (le_refl 0)

/-- One-step unfolding of `parse_time_ago` past a successful match. -/
theorem parse_unfold {s ds : List Char} {u : Char}
    (hmt : matchTime (pyStrip s) = some (ds, u)) :
    parse_time_ago s =
      (if digitsToInt ds < 0 then Except.error TimeParseErrorKind.invalidValue
       else if u.toLower = 'm' then timedeltaOfSeconds (digitsToInt ds * 60)
       else if u.toLower = 'h' then timedeltaOfSeconds (digitsToInt ds * 3600)
       else if u.toLower = 'd' then timedeltaOfSeconds (digitsToInt ds * 86400)
       else Except.error TimeParseErrorKind.unknownUnit) := by
  unfold parse_time_ago
  rw [hmt]

/-- Constructing a `timedelta` from a non-negative, in-range number of
seconds succeeds. -/
theorem timedeltaOfSeconds_ok (secs : Int) (h0 : 0 ≤ secs)
    (hb : secs < 86400 * 1000000000) :
    timedeltaOfSeconds secs = Except.ok secs := by
  unfold timedeltaOfSeconds
  rw [if_neg (by omega), if_pos hb]

/-- Constructing a `timedelta` either succeeds or raises the overflow
error; no other outcome exists. -/
theorem timedeltaOfSeconds_cases (secs : Int) :
    timedeltaOfSeconds secs = Except.ok secs ∨
    timedeltaOfSeconds secs = Except.error TimeParseErrorKind.overflowError := by
  unfold timedeltaOfSeconds
  by_cases h1 : secs < -(999999999 * 86400)
  · right
    rw [if_pos h1]
  · by_cases h2 : secs < 86400 * 1000000000
    · left
      rw [if_neg h1, if_pos h2]
    · right
      rw [if_neg h1, if_neg h2]

/-- A successful match whose magnitude stays inside `timedelta`'s range
always parses to `digit value × seconds-per-unit` (shared helper). -/
theorem parse_ok_of_match {s ds : List Char} {u : Char}
    (hmt : matchTime (pyStrip s) = some (ds, u))
    (hds : ∀ c ∈ ds, isAsciiDigit c = true) (hu : isUnitChar u = true)
    (hbound : digitsToInt ds * unitSeconds u.toLower < 86400 * 1000000000) :
    parse_time_ago s = Except.ok (digitsToInt ds * unitSeconds u.toLower) := by
  have h0 : 0 ≤ digitsToInt ds := digitsToInt_nonneg hds
  rw [parse_unfold hmt, if_neg (by omega)]
  rcases unitChar_cases hu with rfl | rfl | rfl | rfl | rfl | rfl
  · rw [if_pos (by decide),
      timedeltaOfSeconds_ok (digitsToInt ds * 60) (by omega) hbound]
    rfl
  · rw [if_neg (by decide), if_pos (by decide),
      timedeltaOfSeconds_ok (digitsToInt ds * 3600) (by omega) hbound]
    rfl
  · rw [if_neg (by decide), if_neg (by decide), if_pos (by decide),
      timedeltaOfSeconds_ok (digitsToInt ds * 86400) (by omega) hbound]
    rfl
  · rw [if_pos (by decide),
      timedeltaOfSeconds_ok (digitsToInt ds * 60) (by omega) hbound]
    rfl
  · rw [if_neg (by decide), if_pos (by decide),
      timedeltaOfSeconds_ok (digitsToInt ds * 3600) (by omega) hbound]
    rfl
  · rw [if_neg (by decide), if_neg (by decide), if_pos (by decide),
      timedeltaOfSeconds_ok (digitsToInt ds * 86400) (by omega) hbound]
    rfl

/-! ### Claim theorems for the parser and the handler -/

/-- Claim C3 counterexample: The string `"1000000000d"` matches
`^\d+[mMhHdD]$`, yet the program does not succeed on it: 10⁹ days is
beyond `timedelta`'s ±999999999-day range, so `timedelta(days=value)`
(`bot.py` line 68) raises `OverflowError` and no duration is returned. -/
theorem parse_overflow_cex :
    matchesClaimPattern "1000000000d".toList = true ∧
    parse_time_ago "1000000000d".toList =
      Except.error TimeParseErrorKind.overflowError :=
  ⟨by rfl, by rfl⟩

/-- Claim C3 amended: Every string matching `^\d+[mMhHdD]$` — a
non-empty digit group followed by one unit letter in either case — whose
magnitude in the stated unit stays within `timedelta`'s range (fewer
than 86400·10⁹ seconds, i.e. a normalised day count of at most
999999999) parses successfully, and the resulting duration is the digit
value taken in the stated unit (`m` → minutes, `h` → hours, `d` → days,
case-insensitively); at or beyond the bound the `timedelta` constructor
raises `OverflowError` instead. -/
theorem parse_valid_time_strings (ds : List Char) (u : Char) (hne : ds ≠ [])
    (hds : ∀ c ∈ ds, isAsciiDigit c = true) (hu : isUnitChar u = true)
    (hbound : digitsToInt ds * unitSeconds u.toLower < 86400 * 1000000000) :
    parse_time_ago (ds ++ [u]) =
      Except.ok (digitsToInt ds * unitSeconds u.toLower) :=
  parse_ok_of_match
    (by rw [pyStrip_digits_unit hne hds hu, matchTime_digits_unit hne hds hu])
    hds hu hbound

/-- Witness for `parse_valid_time_strings` at `"30m"` (= 1800 s). -/
theorem parse_valid_time_strings_witness :
    (['3', '0'] : List Char) ≠ [] ∧
    digitsToInt ['3', '0'] * unitSeconds 'm'.toLower < 86400 * 1000000000 ∧
    parse_time_ago (['3', '0'] ++ ['m']) =
      Except.ok (digitsToInt ['3', '0'] * unitSeconds 'm'.toLower) ∧
    parse_time_ago "30m".toList = Except.ok 1800 :=
  ⟨by decide, by decide,
    parse_valid_time_strings ['3', '0'] 'm' (by decide) (by decide)
      (by decide) (by decide),
    by rfl⟩

/-- Claim C4 counterexample: The string `" 1h"` does not match
`^\d+[mMhHdD]$` (it starts with a space), yet `parse_time_ago` accepts it
— `time_str.strip()` removes surrounding whitespace before the pattern is
applied — instead of failing with InvalidFormat as the claim requires. -/
theorem parse_padded_whitespace_cex :
    matchesClaimPattern " 1h".toList = false ∧
    parse_time_ago " 1h".toList = Except.ok 3600 :=
  ⟨by rfl, by rfl⟩

/-- Claim C4 amended: Every string whose *whitespace-stripped* form does
not match `^\d+[mMhHdD]$` — including negative signs, a missing unit, or
extra non-whitespace characters; surrounding whitespace alone is removed
by `strip()` before matching — fails with InvalidFormat. -/
theorem parse_invalid_format (s : List Char)
    (h : matchTime (pyStrip s) = none) :
    parse_time_ago s = Except.error TimeParseErrorKind.invalidFormat := by
  unfold parse_time_ago
  rw [h]

/-- Witness for `parse_invalid_format` at `"-1h"`. -/
theorem parse_invalid_format_witness :
    matchTime (pyStrip "-1h".toList) = none ∧
    parse_time_ago "-1h".toList =
      Except.error TimeParseErrorKind.invalidFormat :=
  ⟨by rfl, parse_invalid_format "-1h".toList (by rfl)⟩

/-- Claim C10 counterexample: At `"25000000000h"` the pattern matches
and both defensive branches are indeed skipped, yet the parser does not
"return a duration without raising past the format check": 25·10⁹ hours
exceeds `timedelta`'s range, so `timedelta(hours=value)` (`bot.py`
line 66) raises `OverflowError` and no duration is produced. -/
theorem defensive_overflow_cex :
    (matchTime (pyStrip "25000000000h".toList)).isSome = true ∧
    parse_time_ago "25000000000h".toList =
      Except.error TimeParseErrorKind.overflowError ∧
    ¬ ∃ secs : Int, parse_time_ago "25000000000h".toList =
        Except.ok secs := by
  refine ⟨by rfl, by rfl, ?_⟩
  intro hex
  obtain ⟨secs, h⟩ := hex
  have hval : parse_time_ago "25000000000h".toList =
      Except.error TimeParseErrorKind.overflowError := by rfl
  rw [hval] at h
  exact absurd h (by simp)

/-- Claim C10 amended: Whenever `TIME_PATTERN` matches (on the stripped
input), the two defensive branches of `parse_time_ago` are unreachable —
the matched digit group is a non-negative integer, the lowercased unit
is one of `m`, `h`, `d`, and neither the negative-value error nor the
unknown-unit error is ever returned; the parser returns a duration
whenever the magnitude stays within `timedelta`'s range, the only raise
past the format check being `timedelta`'s own `OverflowError`. -/
theorem defensive_branches_unreachable (s ds : List Char) (u : Char)
    (h : matchTime (pyStrip s) = some (ds, u)) :
    0 ≤ digitsToInt ds ∧
    (u.toLower = 'm' ∨ u.toLower = 'h' ∨ u.toLower = 'd') ∧
    parse_time_ago s ≠ Except.error TimeParseErrorKind.invalidValue ∧
    parse_time_ago s ≠ Except.error TimeParseErrorKind.unknownUnit ∧
    (digitsToInt ds * unitSeconds u.toLower < 86400 * 1000000000 →
      ∃ secs : Int, parse_time_ago s = Except.ok secs) := by
  obtain ⟨hne, hds, hu⟩ := matchTime_inv h
  have h0 : 0 ≤ digitsToInt ds := digitsToInt_nonneg hds
  have hlow : (u.toLower = 'm' ∨ u.toLower = 'h' ∨ u.toLower = 'd') := by
    rcases unitChar_cases hu with rfl | rfl | rfl | rfl | rfl | rfl
    · exact Or.inl (by decide)
    · exact Or.inr (Or.inl (by decide))
    · exact Or.inr (Or.inr (by decide))
    · exact Or.inl (by decide)
    · exact Or.inr (Or.inl (by decide))
    · exact Or.inr (Or.inr (by decide))
  have hform : ∀ k : Int,
      timedeltaOfSeconds k ≠ Except.error TimeParseErrorKind.invalidValue ∧
      timedeltaOfSeconds k ≠ Except.error TimeParseErrorKind.unknownUnit := by
    intro k
    rcases timedeltaOfSeconds_cases k with hk | hk <;> rw [hk] <;>
      exact ⟨by simp, by simp⟩
  have hshape :
      parse_time_ago s = timedeltaOfSeconds
        (digitsToInt ds * unitSeconds u.toLower) := by
    rw [parse_unfold h, if_neg (by omega)]
    rcases unitChar_cases hu with rfl | rfl | rfl | rfl | rfl | rfl
    · rw [if_pos (by decide)]
      rfl
    · rw [if_neg (by decide), if_pos (by decide)]
      rfl
    · rw [if_neg (by decide), if_neg (by decide), if_pos (by decide)]
      rfl
    · rw [if_pos (by decide)]
      rfl
    · rw [if_neg (by decide), if_pos (by decide)]
      rfl
    · rw [if_neg (by decide), if_neg (by decide), if_pos (by decide)]
      rfl
  refine ⟨h0, hlow, ?_, ?_, ?_⟩
  · rw [hshape]
    exact (hform _).1
  · rw [hshape]
    exact (hform _).2
  · intro hbound
    exact ⟨_, parse_ok_of_match h hds hu hbound⟩

/-- Witness for `defensive_branches_unreachable` at `"2D"`. -/
theorem defensive_branches_unreachable_witness :
    matchTime (pyStrip "2D".toList) = some (['2'], 'D') ∧
    (0 ≤ digitsToInt ['2'] ∧
      ('D'.toLower = 'm' ∨ 'D'.toLower = 'h' ∨ 'D'.toLower = 'd') ∧
      parse_time_ago "2D".toList ≠
        Except.error TimeParseErrorKind.invalidValue ∧
      parse_time_ago "2D".toList ≠
        Except.error TimeParseErrorKind.unknownUnit ∧
      (digitsToInt ['2'] * unitSeconds 'D'.toLower < 86400 * 1000000000 →
        ∃ secs : Int, parse_time_ago "2D".toList = Except.ok secs)) :=
  ⟨by rfl, defensive_branches_unreachable "2D".toList ['2'] 'D' (by rfl)⟩

/-- Claim C2: Once both durations are parsed, the handler rejects with
RangeTooWide whenever the start delta strictly exceeds the configured
maximum (`maxDays` days), regardless of the end delta — this check comes
first — and rejects with InvertedRange whenever the start delta is within
the maximum but the end delta is greater than or equal to the start
delta.  Both are outcomes of the pre-fetch phase: only
`PrefetchResult.fetch` continues to the gateway history call, so neither
rejection performs a message fetch. -/
theorem prefetch_rejections (s e : List Char) (maxDays : Nat) (ds de : Int)
    (hs : parse_time_ago s = Except.ok ds)
    (he : parse_time_ago e = Except.ok de) :
    ((maxDays : Int) * 86400 < ds →
      tldr_prefetch s e maxDays = PrefetchResult.rangeTooWide) ∧
    (ds ≤ (maxDays : Int) * 86400 → ds ≤ de →
      tldr_prefetch s e maxDays = PrefetchResult.invertedRange) := by
  unfold tldr_prefetch
  rw [hs, he]
  constructor
  · intro h1
    show (if (maxDays : Int) * 86400 < ds then PrefetchResult.rangeTooWide
      else if ds ≤ de then PrefetchResult.invertedRange
      else PrefetchResult.fetch ds de) = PrefetchResult.rangeTooWide
    rw [if_pos h1]
  · intro h1 h2
    show (if (maxDays : Int) * 86400 < ds then PrefetchResult.rangeTooWide
      else if ds ≤ de then PrefetchResult.invertedRange
      else PrefetchResult.fetch ds de) = PrefetchResult.invertedRange
    rw [if_neg (by omega), if_pos h2]

/-- Witness for `prefetch_rejections`: `start="10d"` against a 3-day
maximum yields RangeTooWide, and `start="1h", end="2h"` yields
InvertedRange. -/
theorem prefetch_rejections_witness :
    tldr_prefetch "10d".toList "0m".toList 3 = PrefetchResult.rangeTooWide ∧
    tldr_prefetch "1h".toList "2h".toList 3 = PrefetchResult.invertedRange :=
  ⟨(prefetch_rejections "10d".toList "0m".toList 3 864000 0
      (by rfl) (by rfl)).1 (by decide),
    (prefetch_rejections "1h".toList "2h".toList 3 3600 7200
      (by rfl) (by rfl)).2 (by decide) (by decide)⟩

/-! ### The reply plan -/

theorem build_embeds_length (chunks : List (List Char)) (ft : List Char) :
    (build_embeds chunks ft).length = min chunks.length MAX_EMBEDS_PER_MESSAGE := by
  unfold build_embeds
  rw [List.length_map, List.enum_length, List.length_take, Nat.min_comm]

theorem build_embeds_get? (chunks : List (List Char)) (ft : List Char)
    (i : Nat) (hi : i < MAX_EMBEDS_PER_MESSAGE) :
    (build_embeds chunks ft).get? i =
      (chunks.get? i).map (fun c => embed_for i chunks.length c ft) := by
  unfold build_embeds
  rw [List.get?_map, List.enum_get?, List.get?_take hi]
  cases chunks.get? i <;> rfl

/-- Claim C6: For a non-empty chunk list, the reply plan holds
`min(chunk count, 10)` display blocks — at most the configured maximum of
10, chunks beyond the cap being dropped silently — block 0 carries the
fixed title, the last included block (index `min(10, count) − 1`) carries
the footer, and the footer text appends to the message-count /
`start → end` base, when a custom focus was supplied, the focus truncated
to its first 50 characters with an `"..."` marker when it is longer. -/
theorem reply_plan_blocks (chunks : List (List Char)) (hne : chunks ≠ [])
    (n : Nat) (s e f : List Char) (focus : Option (List Char)) :
    (build_embeds chunks (footer_text n s e focus)).length =
      min chunks.length MAX_EMBEDS_PER_MESSAGE ∧
    (build_embeds chunks (footer_text n s e focus)).length ≤
      MAX_EMBEDS_PER_MESSAGE ∧
    ((build_embeds chunks (footer_text n s e focus)).head?).map EmbedM.title =
      some (some tldrTitle) ∧
    ((build_embeds chunks (footer_text n s e focus)).get?
        (min chunks.length MAX_EMBEDS_PER_MESSAGE - 1)).map EmbedM.footer =
      some (some (footer_text n s e focus)) ∧
    footer_text n s e (some f) =
      footer_text n s e none ++ " • Focus: ".toList ++ f.take 50 ++
        (if 50 < f.length then "...".toList else []) := by
  have hlen : 0 < chunks.length := List.length_pos.mpr hne
  have hmax : (0 : Nat) < MAX_EMBEDS_PER_MESSAGE := by decide
  refine ⟨build_embeds_length chunks _, ?_, ?_, ?_, by rfl⟩
  · rw [build_embeds_length]
    exact Nat.min_le_right _ _
  · rw [← List.get?_zero, build_embeds_get? chunks _ 0 hmax]
    obtain ⟨c, cs, rfl⟩ := List.exists_cons_of_ne_nil hne
    rfl
  · have hi : min chunks.length MAX_EMBEDS_PER_MESSAGE - 1 <
        MAX_EMBEDS_PER_MESSAGE := by omega
    have hi2 : min chunks.length MAX_EMBEDS_PER_MESSAGE - 1 <
        chunks.length := by omega
    have hOr : min chunks.length MAX_EMBEDS_PER_MESSAGE - 1 =
        chunks.length - 1 ∨
        min chunks.length MAX_EMBEDS_PER_MESSAGE - 1 =
        MAX_EMBEDS_PER_MESSAGE - 1 := by omega
    rw [build_embeds_get? chunks _ _ hi, List.get?_eq_get hi2]
    exact congrArg some (if_pos hOr)

/-- Witness for `reply_plan_blocks` at two chunks, three messages,
range `"2h" → "1h"`, no focus (and the focus-truncation equation
instantiated at the single-character focus `"x"`). -/
theorem reply_plan_blocks_witness :
    ([['a'], ['b']] : List (List Char)) ≠ [] ∧
    ((build_embeds [['a'], ['b']]
        (footer_text 3 "2h".toList "1h".toList none)).length =
      min ([['a'], ['b']] : List (List Char)).length MAX_EMBEDS_PER_MESSAGE ∧
    (build_embeds [['a'], ['b']]
        (footer_text 3 "2h".toList "1h".toList none)).length ≤
      MAX_EMBEDS_PER_MESSAGE ∧
    ((build_embeds [['a'], ['b']]
        (footer_text 3 "2h".toList "1h".toList none)).head?).map EmbedM.title =
      some (some tldrTitle) ∧
    ((build_embeds [['a'], ['b']]
        (footer_text 3 "2h".toList "1h".toList none)).get?
        (min ([['a'], ['b']] : List (List Char)).length
          MAX_EMBEDS_PER_MESSAGE - 1)).map EmbedM.footer =
      some (some (footer_text 3 "2h".toList "1h".toList none)) ∧
    footer_text 3 "2h".toList "1h".toList (some ['x']) =
      footer_text 3 "2h".toList "1h".toList none ++ " • Focus: ".toList ++
        (['x'] : List Char).take 50 ++
        (if 50 < ([' '] : List Char).length then "...".toList else [])) := by
  refine ⟨by decide, ?_⟩
  have h := reply_plan_blocks [['a'], ['b']] (by decide)
    3 "2h".toList "1h".toList ['x'] none
  refine ⟨h.1, h.2.1, h.2.2.1, h.2.2.2.1, ?_⟩
  rw [h.2.2.2.2]
  rfl

